import Mathlib

/-!
A verification development for the `mergo` Go package (deep structural merge).

The engine (`deepMerge` in `merge.go`) walks a destination and a source
`reflect.Value` of identical type and fills empty destination data from the
source, with an optional overwrite mode.  We embed the values the engine
manipulates as a tree-shaped inductive (`Val`), mirroring the `reflect` kinds
the package exercises: struct, map (string keys), slice, pointer, interface and
the scalar kinds.  Mutation is modelled by returning the updated destination
value; every `reflect.Value.Set` site in the source is guarded here exactly as
there (`CanSet = addressable && not read-only`).  Run-time panics of the
reflect API (`Elem` on a non-pointer, `SetMapIndex` through an unexported
field, `Type` on the zero `Value`) are modelled by the `Outcome.panicked`
result, which propagates like a Go panic.

The tree model represents values without aliasing, so the address-keyed
`visited` set of `merge.go` (lines 74-89) can never observe a repeated
(dst, src) address pair and is dropped from the tree engine; it is modelled
faithfully in the separate heap-based model used for the cycle-termination
claim, where addresses and sharing exist.
-/

namespace Mergo

/-- Structural types, mirroring what `reflect.Type` distinguishes for the
kinds the package handles.  Struct types are nominal (`tyStruct name`); map
keys are fixed to strings; an interface value's static type is the interface
itself (`tyIface`), its dynamic type only appears after unwrapping. -/
inductive Ty where
  | tyInt
  | tyStr
  | tyBool
  | tyStruct (name : String)
  | tyMap (elem : Ty)
  | tySlice (elem : Ty)
  | tyIface
  | tyPtr (elem : Ty)
  deriving DecidableEq, Repr

mutual
/-- A Go value as the merge engine sees it.  `vIface none` / `vPtr _ none` are
the nil interface / nil pointer; a pointer inlines its pointee (the tree model
is alias-free). -/
inductive Val where
  | vInt (n : Int)
  | vStr (s : String)
  | vBool (b : Bool)
  | vStruct (name : String) (fields : Fields)
  | vMap (elem : Ty) (entries : Entries)
  | vSlice (elem : Ty) (elems : Elems)
  | vIface (inner : Option Val)
  | vPtr (elem : Ty) (inner : Option Val)

/-- The ordered fields of a struct value: name, exported flag, value. -/
inductive Fields where
  | nil
  | cons (name : String) (exported : Bool) (v : Val) (rest : Fields)

/-- The entries of a map value (string keys). -/
inductive Entries where
  | nil
  | cons (key : String) (v : Val) (rest : Entries)

/-- The elements of a slice value. -/
inductive Elems where
  | nil
  | cons (v : Val) (rest : Elems)
end

/-- Number of entries of a map value (`reflect.Value.Len`). -/
def Entries.length : Entries → Nat
  | .nil => 0
  | .cons _ _ rest => 1 + rest.length

/-- Number of elements of a slice value (`reflect.Value.Len`). -/
def Elems.length : Elems → Nat
  | .nil => 0
  | .cons _ rest => 1 + rest.length

/-- Concatenation of slice elements (`reflect.AppendSlice`). -/
def Elems.append : Elems → Elems → Elems
  | .nil, ys => ys
  | .cons x rest, ys => .cons x (rest.append ys)

/-- Map lookup (`reflect.Value.MapIndex`); `none` models the invalid
`reflect.Value` returned for an absent key. -/
def Entries.lookup : Entries → String → Option Val
  | .nil, _ => none
  | .cons k v rest, key => if k = key then some v else rest.lookup key

/-- Map assignment (`reflect.Value.SetMapIndex`): replace the entry if the key
is present, otherwise add it. -/
def Entries.set : Entries → String → Val → Entries
  | .nil, key, nv => .cons key nv .nil
  | .cons k v rest, key, nv =>
      if k = key then .cons k nv rest else .cons k v (rest.set key nv)

/-- The keys of a map value, in entry order. -/
def Entries.keys : Entries → List String
  | .nil => []
  | .cons k _ rest => k :: rest.keys

/-- Field access by position (`reflect.Value.Field`). -/
def Fields.nth : Fields → Nat → Option (String × Bool × Val)
  | .nil, _ => none
  | .cons n ex v _, 0 => some (n, ex, v)
  | .cons _ _ _ rest, i + 1 => rest.nth i

/-- The `reflect.Type` of a value (`reflect.Value.Type`). -/
def tyOf : Val → Ty
  | .vInt _ => .tyInt
  | .vStr _ => .tyStr
  | .vBool _ => .tyBool
  | .vStruct n _ => .tyStruct n
  | .vMap t _ => .tyMap t
  | .vSlice t _ => .tySlice t
  | .vIface _ => .tyIface
  | .vPtr t _ => .tyPtr t

/-- Faithful port of `isEmptyValue` (`mergo.go` lines 37-53): zero-length
string/map/slice, zero numbers, false booleans and nil interfaces/pointers
are empty; structs (and anything else) fall through to `return false`. -/
def isEmptyValue : Val → Bool
  | .vInt n => n == 0
  | .vStr s => s.length == 0
  | .vBool b => !b
  | .vStruct _ _ => false
  | .vMap _ es => es.length == 0
  | .vSlice _ es => es.length == 0
  | .vIface i => i.isNone
  | .vPtr _ i => i.isNone

/-- The error values declared in `mergo.go` (lines 17-23) plus the
`fmt.Errorf` type-mismatch error produced inside `deepMerge` (line 59). -/
inductive MergoError where
  | nilArguments
  | differentArgumentsTypes
  | notSupported
  | typeMismatch
  deriving DecidableEq, Repr

/-- Result of running a piece of Go code that can panic: either a run-time
panic of the reflect API, or an ordinary return value. -/
inductive Outcome (α : Type) where
  | panicked
  | ok (a : α)
  deriving DecidableEq, Repr

/-- Unwrapping of a boxed value (`reflect.ValueOf(x.Interface())`, `merge.go`
lines 44-45): an interface exposes its dynamic value, anything else is
returned as is.  `none` models the invalid zero `reflect.Value` obtained from
a nil interface. -/
def unwrapIface : Val → Option Val
  | .vIface i => i
  | v => some v

/-- When a merged copy of a map entry is written back with `SetMapIndex`
(`merge.go` line 53) into a map whose element type is an interface, the
concrete value is re-boxed by the assignment. -/
def rewrap (elem : Ty) (v : Val) : Val :=
  if elem = .tyIface then .vIface (some v) else v

/-- Control decision for one iteration of the `mergeMaps` loop
(`merge.go` lines 33-54): either the reflect API panics, or the iteration
continues with an updated (or unchanged) map, or a nested merge of the two
unboxed entry values is required. -/
inductive EntryCtl where
  | panic
  | next (de2 : Entries)
  | nested (dv2 : Val)

/-- The non-recursive part of one `mergeMaps` iteration for key `k` with
source entry `sv` (`merge.go` lines 34-47): an absent, empty or overwritten
destination entry receives the source entry verbatim (`SetMapIndex`, which
panics on a read-only map); a read-only source entry cannot be unboxed
(`CanInterface` is false) and is skipped; a nil-interface source entry
reaches `src.Type()` as the invalid `reflect.Value` and panics; otherwise
both entries are unboxed (`reflect.ValueOf(x.Interface())`) and a nested
merge of the unboxed pair is requested — `deepMergeEntries` performs it,
where the source operand is in hand for the recursion. -/
def entryCtl (de : Entries) (k : String) (sv : Val) (ro overwrite : Bool) :
    EntryCtl :=
  match de.lookup k with
  | none => if ro then .panic else .next (de.set k sv)
  | some dv =>
      if isEmptyValue dv || overwrite then
        if ro then .panic else .next (de.set k sv)
      else if ro then .next de
      else
        match unwrapIface sv, unwrapIface dv with
        | none, _ => .panic
        | _, none => .panic
        | some _, some dv2 => .nested dv2

mutual
/-- Port of `deepMerge` (`merge.go` lines 21-121) on the tree model.
`dstAddr` is `dst.CanAddr()`, `ro` the reflect read-only flag shared by both
sides (set once traversal passed through an unexported field), so
`dst.CanSet() = dstAddr && !ro` and `src.CanInterface() = !ro`.  The visited
map (lines 74-89) is dropped: tree values are unaliased, so no (dst, src)
address pair ever repeats (see the heap model below for the cyclic case).
Mutation is modelled by the returned value: every site that changes it is
guarded exactly like the corresponding `Set` call in the source. -/
def deepMerge (dst src : Val) (dstAddr ro overwrite : Bool) :
    Outcome (Val × Option MergoError) :=
  if tyOf src ≠ tyOf dst then .ok (dst, some .typeMismatch)
  else if isEmptyValue src then .ok (dst, none)
  else if isEmptyValue dst then
    .ok (if dstAddr && !ro then src else dst, none)
  else
    match dst, src with
    | .vStruct n df, .vStruct _ sf =>
        match deepMergeFields df sf dstAddr ro overwrite with
        | .panicked => .panicked
        | .ok (df2, e) => .ok (.vStruct n df2, e)
    | .vMap t de, .vMap _ se =>
        match deepMergeEntries t de se ro overwrite with
        | .panicked => .panicked
        | .ok de2 => .ok (.vMap t de2, none)
    | .vPtr t (some dp), .vPtr _ (some sp) =>
        if !overwrite then
          -- a pointer's Elem is addressable; the read-only flag carries over
          match deepMerge dp sp true ro overwrite with
          | .panicked => .panicked
          | .ok (dp2, e) => .ok (.vPtr t (some dp2), e)
        else .ok (if dstAddr && !ro then src else dst, none)
    | .vIface (some dp), .vIface (some sp) =>
        if !overwrite then
          -- an interface's Elem is not addressable
          match deepMerge dp sp false ro overwrite with
          | .panicked => .panicked
          | .ok (dp2, e) => .ok (.vIface (some dp2), e)
        else .ok (if dstAddr && !ro then src else dst, none)
    | .vSlice t de, .vSlice _ se =>
        if dstAddr && !ro && !overwrite then
          .ok (.vSlice t (de.append se), none)
        else .ok (if dstAddr && !ro && overwrite then src else dst, none)
    | d, s =>
        -- scalar kinds (and the nil pointer/interface cases already ruled
        -- out by the emptiness checks): fall through to line 117
        if dstAddr && !ro && overwrite then .ok (s, none) else .ok (d, none)

/-- Port of the `mergeStructs` closure (`merge.go` lines 22-29): every field,
exported or not, is visited in order, pairing equal positions of `dst` and
`src`; the first field error aborts the loop and propagates, keeping the
mutations made so far.  Reading an unexported field sets the read-only flag
on the field value.  A position missing on the source side would be an
out-of-range `src.Field(i)` panic (unreachable for well-typed inputs). -/
def deepMergeFields (df sf : Fields) (dstAddr ro overwrite : Bool) :
    Outcome (Fields × Option MergoError) :=
  match df, sf with
  | .nil, _ => .ok (.nil, none)
  | .cons _ _ _ _, .nil => .panicked
  | .cons n ex v rest, .cons _ _ sv srest =>
      match deepMerge v sv dstAddr (ro || !ex) overwrite with
      | .panicked => .panicked
      | .ok (v2, some e) => .ok (.cons n ex v2 rest, some e)
      | .ok (v2, none) =>
          match deepMergeFields rest srest dstAddr ro overwrite with
          | .panicked => .panicked
          | .ok (rest2, e) => .ok (.cons n ex v2 rest2, e)

/-- Port of the `mergeMaps` closure (`merge.go` lines 31-56), iterating the
source entries.  An absent, empty or overwritten destination entry receives
the source entry verbatim (`SetMapIndex`, which panics on a read-only map);
otherwise, unless the entries cannot be unboxed (`CanInterface` false), both
entries are unboxed and merged into a fresh settable copy of the destination
entry, which is written back only when that nested merge returns no error.
A nil-interface source entry reaching the nested call makes `src.Type()`
panic on the invalid `reflect.Value` (`merge.go` line 58). -/
def deepMergeEntries (t : Ty) :
    Entries → Entries → Bool → Bool → Outcome Entries
  | de, .nil, _, _ => .ok de
  | de, .cons k sv srest, ro, overwrite =>
      match entryCtl de k sv ro overwrite with
      | .panic => .panicked
      | .next de2 => deepMergeEntries t de2 srest ro overwrite
      | .nested dv2 =>
          -- the nested merge happens here, where the termination checker can
          -- see its source operand inside the entry being traversed
          match sv with
          | .vIface (some sv2) =>
              (match deepMerge dv2 sv2 true false overwrite with
                | .panicked => .panicked
                | .ok (_, some _) => deepMergeEntries t de srest ro overwrite
                | .ok (d2, none) =>
                    deepMergeEntries t (de.set k (rewrap t d2)) srest ro overwrite)
          | .vIface none => .panicked
          | sv2 =>
              (match deepMerge dv2 sv2 true false overwrite with
                | .panicked => .panicked
                | .ok (_, some _) => deepMergeEntries t de srest ro overwrite
                | .ok (d2, none) =>
                    deepMergeEntries t (de.set k (rewrap t d2)) srest ro overwrite)
end

/-- Whether a value's kind is Struct or Map (the two destination kinds
`resolveValues` accepts). -/
def isStructOrMap : Val → Bool
  | .vStruct _ _ => true
  | .vMap _ _ => true
  | _ => false

/-- Whether a value's kind is Ptr. -/
def isPtrKind : Val → Bool
  | .vPtr _ _ => true
  | _ => false

/-- Port of `resolveValues` (`mergo.go` lines 55-71).  The arguments are the
`interface\x7b\x7d` parameters of `Merge`: `none` is the Go `nil` literal,
`some v` a non-nil argument boxing `v`.  Returns Go's named results
`(vDst, vSrc, err)`; a `none` component models an unassigned or invalid
`reflect.Value`.  `reflect.ValueOf(dst).Elem()` panics when `dst` is not a
pointer; on a nil pointer it yields the invalid zero `Value`, whose kind
`Invalid` then fails the Struct-or-Map check. -/
def resolveValues (dst src : Option Val) :
    Outcome (Option Val × Option Val × Option MergoError) :=
  match dst, src with
  | none, _ => .ok (none, none, some .nilArguments)
  | _, none => .ok (none, none, some .nilArguments)
  | some d, some s =>
      match d with
      | .vPtr _ (some dv) =>
          if isStructOrMap dv then
            let vSrc : Option Val :=
              match s with
              | .vPtr _ i => i
              | s2 => some s2
            .ok (some dv, vSrc, none)
          else .ok (some dv, none, some .notSupported)
      | .vPtr _ none => .ok (none, none, some .notSupported)
      | _ => .panicked

/-- Port of `merge` (`merge.go` lines 137-149).  The returned value is the
final destination pointee (`some` whenever `resolveValues` produced one,
unchanged on the error paths since the engine never ran).  A nil-pointer
source leaves `vSrc` invalid and `vSrc.Type()` panics at the comparison on
line 145. -/
def merge (dst src : Option Val) (overwrite : Bool) :
    Outcome (Option Val × Option MergoError) :=
  match resolveValues dst src with
  | .panicked => .panicked
  | .ok (vDst, _, some e) => .ok (vDst, some e)
  | .ok (some vDst, some vSrc, none) =>
      if tyOf vDst ≠ tyOf vSrc then .ok (some vDst, some .differentArgumentsTypes)
      else
        match deepMerge vDst vSrc true false overwrite with
        | .panicked => .panicked
        | .ok (vDst2, e) => .ok (some vDst2, e)
  | .ok (_, _, none) => .panicked

/-- Port of `Merge` (`merge.go` lines 127-129). -/
def Merge (dst src : Option Val) : Outcome (Option Val × Option MergoError) :=
  merge dst src false

/-- Port of `MergeWithOverwrite` (`merge.go` lines 133-135). -/
def MergeWithOverwrite (dst src : Option Val) :
    Outcome (Option Val × Option MergoError) :=
  merge dst src true

/-! ## Heap model for self-referential records

The cycle-termination claim needs real addresses and sharing, which the tree
model deliberately lacks.  We model the test suite's self-referential record
`type list struct \x7b Next *list \x7d`: a heap maps each node's address to
the value of its single pointer field (`none` = nil `Next`).  Since the node
has exactly one exported field at offset 0, the struct's address and its
`Next` field's address coincide, and one step of `deepMerge` on a node pair
(struct level: equal types, `hard(Struct) = false` so no visit key, structs
are never `isEmptyValue`, `mergeStructs` visits the single field) followed by
the field step is exactly one pointer-level `deepMerge`.  `HSrc` captures the
source side's addressability: the top-level source is a non-addressable copy
(`reflect.ValueOf(src)`), everything below is reached through `Elem` of a
pointer and is addressable, carrying the address used for the visit key. -/

/-- A heap of `list` nodes: address to the node's `Next` pointer. -/
abbrev Heap := List (Nat × Option Nat)

/-- The addresses allocated in a heap. -/
def hdom (h : Heap) : List Nat := h.map (·.1)

/-- Read the `Next` pointer of the node at address `a`; `none` when `a` is
not allocated (impossible for pointers obtained from Go values). -/
def hget (h : Heap) (a : Nat) : Option (Option Nat) :=
  (h.find? (fun p => p.1 = a)).map (·.2)

/-- Write the `Next` pointer of the node at address `a`
(`reflect.Value.Set` through the field's address). -/
def hset (h : Heap) (a : Nat) (v : Option Nat) : Heap :=
  h.map (fun p => if p.1 = a then (a, v) else p)

/-- The source side of a pointer-level merge step on `list` nodes:
`copyP v` is the `Next` field of a by-value (non-addressable) source copy
holding pointer value `v`; `atP a` is the `Next` field of the source node
at address `a`, addressable with address `a`. -/
inductive SrcP where
  | copyP (v : Option Nat)
  | atP (a : Nat)
  deriving DecidableEq, Repr

/-- One pointer-level `deepMerge` step (`merge.go` lines 58-121) specialised
to `list` nodes, fuel-indexed so that non-termination would surface as a
`none` result.  `da` is the address of the destination's `Next` field (equal
to the destination node's address), always addressable and settable.  In
order of the source: the type check always passes (both sides are `*list`);
the visit key `(addr1, addr2, typ)` is computed only when both sides are
addressable (`typ` is constantly `*list` and is omitted) and short-circuits a
revisited pair before anything else; an empty (nil) source pointer
contributes nothing; an empty destination pointer adopts the source pointer
wholesale; otherwise, without overwrite the engine recurses into both
pointees (line 109) — whose single field is again a `Next` pointer at the
pointee's own address — and with overwrite it falls through to line 117-119
and replaces the destination pointer.  A `none` result means the fuel ran
out (or an address escaped the heap, excluded by the theorems' hypotheses). -/
def deepMergeList (overwrite : Bool) :
    Nat → Heap → List (Nat × Nat) → Nat → SrcP → Option (Heap × List (Nat × Nat))
  | 0, _, _, _, _ => none
  | fuel + 1, h, visited, da, s =>
      let hit : Bool := match s with
        | .atP a => (da, a) ∈ visited
        | .copyP _ => false
      if hit then some (h, visited)
      else
        let vis2 : List (Nat × Nat) := match s with
          | .atP a => (da, a) :: visited
          | .copyP _ => visited
        match hget h da with
        | none => none
        | some dv =>
            let sv? : Option (Option Nat) := match s with
              | .copyP v => some v
              | .atP a => hget h a
            match sv? with
            | none => none
            | some none => some (h, vis2)
            | some (some sb) =>
                match dv with
                | none => some (hset h da (some sb), vis2)
                | some db =>
                    if overwrite then some (hset h da (some sb), vis2)
                    else deepMergeList overwrite fuel h vis2 db (.atP sb)

/-- `merge(&dstNode, src, overwrite)` on `list` nodes: `resolveValues` yields
the destination node at address `da` and the source-side field `s`, the types
agree, and `deepMerge` starts with a fresh empty visited map. -/
def mergeList (overwrite : Bool) (fuel : Nat) (h : Heap) (da : Nat) (s : SrcP) :
    Option Heap :=
  (deepMergeList overwrite fuel h [] da s).map (·.1)

/-- A heap is closed when every stored pointer targets an allocated node —
true of any heap built from live Go pointers. -/
def closedHeapB (h : Heap) : Bool :=
  h.all (fun p => match p.2 with
    | none => true
    | some b => decide (b ∈ hdom h))

/-- Well-formedness of a source side: its pointer (or address) targets an
allocated node. -/
def okSrcPB (h : Heap) : SrcP → Bool
  | .copyP none => true
  | .copyP (some b) => decide (b ∈ hdom h)
  | .atP a => decide (a ∈ hdom h)

/-- Fuel headroom a call needs beyond the visited-set capacity: a source
with an address records a visit key before recursing, a by-value copy does
not (one extra level). -/
def srcFuelNeed : SrcP → Nat
  | .atP _ => 1
  | .copyP _ => 2

/-- Whether a value is of a scalar kind (terminal primitive). -/
def isScalarKind : Val → Bool
  | .vInt _ => true
  | .vStr _ => true
  | .vBool _ => true
  | _ => false

/-- Whether every field of a struct holds a scalar. -/
def allScalarFields : Fields → Bool
  | .nil => true
  | .cons _ _ v rest => isScalarKind v && allScalarFields rest

/-- What one engine step does to a scalar destination (the residue of
`deepMerge` lines 91-100 and 117-119 once the per-kind switch falls
through): an empty source contributes nothing, an empty destination adopts
the source if settable, otherwise the source wins only in overwrite mode. -/
def scalarMerge (d s : Val) (dstAddr ro overwrite : Bool) : Val :=
  if isEmptyValue s then d
  else if isEmptyValue d then (if dstAddr && !ro then s else d)
  else if dstAddr && !ro && overwrite then s else d

/-- The `simpleTest` struct of the test suite: one exported int field. -/
def sT (n : Int) : Val :=
  .vStruct "simpleTest" (.cons "Value" true (.vInt n) .nil)

/-- The `sliceTest` struct of the test suite: one exported int-slice field. -/
def slT (es : Elems) : Val :=
  .vStruct "sliceTest" (.cons "S" true (.vSlice .tyInt es) .nil)

/-- A struct with a single exported interface field boxing `v`. -/
def ifaceS (v : Val) : Val :=
  .vStruct "S" (.cons "I" true (.vIface (some v)) .nil)

/-- The destination map of the spec's map-union example (`TestMaps`). -/
def mapDstEx : Entries :=
  .cons "a" (sT 0) (.cons "b" (sT 42) (.cons "c" (sT 13) (.cons "d" (sT 61) .nil)))

/-- The source map of the spec's map-union example. -/
def mapSrcEx : Entries :=
  .cons "a" (sT 16) (.cons "b" (sT 0) (.cons "c" (sT 12) (.cons "e" (sT 14) .nil)))

/-- The expected result of the spec's map-union example. -/
def mapExpEx : Entries :=
  .cons "a" (sT 16) (.cons "b" (sT 42) (.cons "c" (sT 13)
    (.cons "d" (sT 61) (.cons "e" (sT 14) .nil))))

/-- Two disjoint two-node pointer cycles: destination nodes 0 ↔ 1, source
nodes 2 ↔ 3 (the shape of `TestCircularSrcAndDstPointerStruct`). -/
def exHeap : Heap := [(0, some 1), (1, some 0), (2, some 3), (3, some 2)]

/-- What one non-overwrite `mergeMaps` pass guarantees for a single key, in
terms of lookups: a key absent from the source is untouched; a source key
lands verbatim when the destination entry is absent or empty; a non-empty
destination entry is replaced by the nested merge of the unboxed entries
re-boxed for the map (`rewrap`) when that merge reports no error, and kept
as it was when the nested merge errs. -/
def mapsKeySpec (t : Ty) (de se re : Entries) (k : String) : Prop :=
  (se.lookup k = none → re.lookup k = de.lookup k) ∧
  (∀ sv, se.lookup k = some sv →
    ((de.lookup k = none → re.lookup k = some sv) ∧
     (∀ dv, de.lookup k = some dv → isEmptyValue dv = true →
        re.lookup k = some sv) ∧
     (∀ dv, de.lookup k = some dv → isEmptyValue dv = false →
        ∀ dv2 sv2, unwrapIface dv = some dv2 → unwrapIface sv = some sv2 →
          ((∀ d2, deepMerge dv2 sv2 true false false = .ok (d2, none) →
              re.lookup k = some (rewrap t d2)) ∧
           (∀ d2 e0, deepMerge dv2 sv2 true false false = .ok (d2, some e0) →
              re.lookup k = some dv)))))

theorem closedHeapB_mem {h : Heap} {a b : Nat}
    (hcl : closedHeapB h = true) (hm : (a, some b) ∈ h) : b ∈ hdom h := by
  have := List.all_eq_true.mp hcl _ hm
  simpa using this

theorem hget_mem {h : Heap} {a : Nat} {v : Option Nat}
    (hv : hget h a = some v) : (a, v) ∈ h := by
  unfold hget at hv
  cases hfind : h.find? (fun p => decide (p.1 = a)) with
  | none => rw [hfind] at hv; simp at hv
  | some q =>
      rw [hfind] at hv
      simp at hv
      have hq : q ∈ h := List.mem_of_find?_eq_some hfind
      have hqa : q.1 = a := by
        have := List.find?_some hfind
        simpa using this
      have : q = (a, v) := by
        cases q with
        | mk q1 q2 => simp at hqa hv; rw [hqa, hv]
      rwa [this] at hq

theorem hget_isSome {h : Heap} {a : Nat} (ha : a ∈ hdom h) :
    (hget h a).isSome := by
  induction h with
  | nil => simp [hdom] at ha
  | cons p t ih =>
      unfold hget
      rcases eq_or_ne p.1 a with he | hne
      · simp [List.find?_cons, he]
      · have ht : a ∈ hdom t := by
          simp only [hdom, List.map_cons, List.mem_cons] at ha
          rcases ha with h1 | h1
          · exact absurd h1.symm hne
          · simpa [hdom] using h1
        have := ih ht
        unfold hget at this
        simp only [List.find?_cons, hne, decide_eq_true_eq, if_neg]
        simpa [hne] using this

theorem visited_length_le (h : Heap) (vis : List (Nat × Nat)) (hnd : vis.Nodup)
    (hmem : ∀ q ∈ vis, q.1 ∈ hdom h ∧ q.2 ∈ hdom h) :
    vis.length ≤ (hdom h).length * (hdom h).length := by
  classical
  have hsub : vis.toFinset ⊆ (hdom h).toFinset ×ˢ (hdom h).toFinset := by
    intro q hq
    rw [List.mem_toFinset] at hq
    rcases hmem q hq with ⟨h1, h2⟩
    rw [Finset.mem_product]
    exact ⟨List.mem_toFinset.mpr h1, List.mem_toFinset.mpr h2⟩
  calc vis.length = vis.toFinset.card := (List.toFinset_card_of_nodup hnd).symm
    _ ≤ ((hdom h).toFinset ×ˢ (hdom h).toFinset).card := Finset.card_le_card hsub
    _ = (hdom h).toFinset.card * (hdom h).toFinset.card :=
        Finset.card_product _ _
    _ ≤ (hdom h).length * (hdom h).length :=
        Nat.mul_le_mul (List.toFinset_card_le _) (List.toFinset_card_le _)

/-- The engine cannot run out of fuel once the fuel covers the visited set's
capacity: every pointer-level recursion step on an addressable pair first
records a fresh visit key drawn from the finite set of address pairs of the
heap, and the heap's addresses never change (writes only update allocated
nodes).  This is the engine-level termination argument. -/
theorem deepMergeList_isSome (ow : Bool) :
    ∀ (fuel : Nat) (h : Heap) (vis : List (Nat × Nat)) (da : Nat) (s : SrcP),
      closedHeapB h = true → da ∈ hdom h → okSrcPB h s = true →
      vis.Nodup → (∀ q ∈ vis, q.1 ∈ hdom h ∧ q.2 ∈ hdom h) →
      (hdom h).length * (hdom h).length + srcFuelNeed s ≤ fuel + vis.length →
      (deepMergeList ow fuel h vis da s).isSome := by
  intro fuel
  induction fuel with
  | zero =>
      intro h vis da s _ _ _ hnd hmem hbound
      exfalso
      have hle := visited_length_le h vis hnd hmem
      have h1 : 1 ≤ srcFuelNeed s := by cases s <;> simp [srcFuelNeed]
      omega
  | succ n ih =>
      intro h vis da s hcl hda hok hnd hmem hbound
      obtain ⟨dv, hdv⟩ := Option.isSome_iff_exists.mp (hget_isSome hda)
      cases s with
      | atP a =>
          have ha : a ∈ hdom h := by simpa [okSrcPB] using hok
          by_cases hv : (da, a) ∈ vis
          · simp [deepMergeList, hv]
          · obtain ⟨sv, hsv⟩ := Option.isSome_iff_exists.mp (hget_isSome ha)
            cases sv with
            | none => simp [deepMergeList, hv, hdv, hsv]
            | some sb =>
                have hsb : sb ∈ hdom h := closedHeapB_mem hcl (hget_mem hsv)
                cases dv with
                | none => simp [deepMergeList, hv, hdv, hsv]
                | some db =>
                    have hdb : db ∈ hdom h := closedHeapB_mem hcl (hget_mem hdv)
                    cases ow with
                    | true => simp [deepMergeList, hv, hdv, hsv]
                    | false =>
                        have hrec := ih h ((da, a) :: vis) db (.atP sb) hcl hdb
                          (by simpa [okSrcPB] using hsb)
                          (List.nodup_cons.mpr ⟨hv, hnd⟩)
                          (by
                            intro q hq
                            rcases List.mem_cons.mp hq with hq1 | hq1
                            · rw [hq1]; exact ⟨hda, ha⟩
                            · exact hmem q hq1)
                          (by
                            simp only [srcFuelNeed, List.length_cons] at hbound ⊢
                            omega)
                        simpa [deepMergeList, hv, hdv, hsv] using hrec
      | copyP v =>
          cases v with
          | none => simp [deepMergeList, hdv]
          | some sb =>
              have hsb : sb ∈ hdom h := by simpa [okSrcPB] using hok
              cases dv with
              | none => simp [deepMergeList, hdv]
              | some db =>
                  have hdb : db ∈ hdom h := closedHeapB_mem hcl (hget_mem hdv)
                  cases ow with
                  | true => simp [deepMergeList, hdv]
                  | false =>
                      have hrec := ih h vis db (.atP sb) hcl hdb
                        (by simpa [okSrcPB] using hsb) hnd hmem
                        (by
                          simp only [srcFuelNeed] at hbound ⊢
                          omega)
                      simpa [deepMergeList, hdv] using hrec

theorem Elems.append_nil : ∀ es : Elems, es.append .nil = es
  | .nil => rfl
  | .cons x rest => by rw [Elems.append, Elems.append_nil rest]

theorem Entries.lookup_set_self :
    ∀ (de : Entries) (k : String) (v : Val), (de.set k v).lookup k = some v
  | .nil, k, v => by simp [Entries.set, Entries.lookup]
  | .cons k0 v0 rest, k, v => by
      rw [Entries.set]
      by_cases hk : k0 = k
      · rw [if_pos hk]
        simp only [Entries.lookup]
        rw [if_pos hk]
      · rw [if_neg hk]
        simp only [Entries.lookup]
        rw [if_neg hk, Entries.lookup_set_self rest k v]

theorem Entries.lookup_set_ne :
    ∀ (de : Entries) (k k2 : String) (v : Val), k2 ≠ k →
      (de.set k v).lookup k2 = de.lookup k2
  | .nil, k, k2, v, hne => by
      have hne2 : ¬ k = k2 := fun h => hne h.symm
      simp [Entries.set, Entries.lookup, hne2]
  | .cons k0 v0 rest, k, k2, v, hne => by
      rw [Entries.set]
      by_cases hk : k0 = k
      · rw [if_pos hk]
        simp only [Entries.lookup]
        have hne2 : ¬ k0 = k2 := by rw [hk]; exact fun h => hne h.symm
        rw [if_neg hne2, if_neg hne2]
      · rw [if_neg hk]
        simp only [Entries.lookup]
        by_cases hk2 : k0 = k2
        · rw [if_pos hk2, if_pos hk2]
        · rw [if_neg hk2, if_neg hk2, Entries.lookup_set_ne rest k k2 v hne]

theorem Entries.lookup_eq_none :
    ∀ (se : Entries) (k : String), k ∉ se.keys → se.lookup k = none
  | .nil, _, _ => rfl
  | .cons k0 v0 rest, k, hk => by
      simp [Entries.keys] at hk
      have hne : ¬ k0 = k := fun h => hk.1 h.symm
      simp [Entries.lookup, hne, Entries.lookup_eq_none rest k hk.2]

theorem Entries.length_eq_zero : ∀ {se : Entries}, se.length = 0 → se = .nil
  | .nil, _ => rfl
  | .cons _ _ _, h => by simp [Entries.length] at h

/-- A merge step that produced no error saw equal types (line 58 fires
otherwise). -/
theorem deepMerge_ty_eq {d s v : Val} {a r ow : Bool}
    (h : deepMerge d s a r ow = .ok (v, none)) : tyOf s = tyOf d := by
  by_contra hne
  rw [deepMerge.eq_def, if_pos hne] at h
  simp at h

/-- An empty source contributes nothing (lines 91-93). -/
theorem deepMerge_src_empty {d s : Val} (a r ow : Bool)
    (hty : tyOf s = tyOf d) (hse : isEmptyValue s = true) :
    deepMerge d s a r ow = .ok (d, none) := by
  rw [deepMerge.eq_def, if_neg (by simp [hty]), if_pos hse]

/-- An empty destination adopts the source wholesale when settable
(lines 95-100). -/
theorem deepMerge_dst_empty {d s : Val} (a r ow : Bool)
    (hty : tyOf s = tyOf d) (hse : isEmptyValue s = false)
    (hde : isEmptyValue d = true) :
    deepMerge d s a r ow = .ok (if a && !r then s else d, none) := by
  rw [deepMerge.eq_def, if_neg (by simp [hty]), if_neg (by simp [hse]),
    if_pos hde]

/-- On a scalar destination the per-kind switch falls through, so the whole
step is `scalarMerge`: it never errs nor panics. -/
theorem deepMerge_scalar_step {d s : Val} (a r ow : Bool)
    (hd : isScalarKind d = true) (hty : tyOf s = tyOf d) :
    deepMerge d s a r ow = .ok (scalarMerge d s a r ow, none) := by
  by_cases hse : isEmptyValue s
  · rw [deepMerge_src_empty a r ow hty hse]
    simp [scalarMerge, hse]
  · have hse2 : isEmptyValue s = false := by simpa using hse
    by_cases hde : isEmptyValue d
    · rw [deepMerge_dst_empty a r ow hty hse2 hde]
      simp [scalarMerge, hse2, hde]
    · have hde2 : isEmptyValue d = false := by simpa using hde
      rw [deepMerge.eq_def, if_neg (by simp [hty]), if_neg (by simp [hse2]),
        if_neg (by simp [hde2])]
      cases d <;> simp [isScalarKind] at hd <;>
        cases s <;> simp [tyOf] at hty <;>
          by_cases hc : (a && !r && ow) = true <;>
            simp [scalarMerge, hse2, hde2, hc]

/-- A struct-kind merge reduces to `mergeStructs` on the fields: structs are
never `isEmptyValue`, so neither early return fires. -/
theorem deepMerge_struct_ok {n : String} {df sf : Fields} {a r ow : Bool}
    {v : Val} {e : Option MergoError}
    (h : deepMerge (.vStruct n df) (.vStruct n sf) a r ow = .ok (v, e)) :
    ∃ rf, v = .vStruct n rf ∧ deepMergeFields df sf a r ow = .ok (rf, e) := by
  rw [deepMerge.eq_def, if_neg (by simp [tyOf]), if_neg (by simp [isEmptyValue]),
    if_neg (by simp [isEmptyValue])] at h
  replace h :
      (match deepMergeFields df sf a r ow with
        | Outcome.panicked => Outcome.panicked
        | Outcome.ok (df2, e2) => Outcome.ok (Val.vStruct n df2, e2))
        = Outcome.ok (v, e) := h
  cases hf : deepMergeFields df sf a r ow with
  | panicked => rw [hf] at h; simp at h
  | ok p =>
      rw [hf] at h
      cases p with
      | mk rf e2 =>
          simp at h
          rcases h with ⟨h1, h2⟩
          subst h2
          exact ⟨rf, h1.symm, rfl⟩

/-- A map-kind merge with a non-empty destination and source reduces to
`mergeMaps` on the entries and never reports an error. -/
theorem deepMerge_map_ok {t : Ty} {de se : Entries} {a r ow : Bool}
    {v : Val} {e : Option MergoError}
    (hde : de ≠ .nil) (hse : se ≠ .nil)
    (h : deepMerge (.vMap t de) (.vMap t se) a r ow = .ok (v, e)) :
    ∃ re, v = .vMap t re ∧ e = none ∧
      deepMergeEntries t de se r ow = .ok re := by
  have hse2 : isEmptyValue (Val.vMap t se) = false := by
    cases se with
    | nil => exact absurd rfl hse
    | cons k v0 rest => simp [isEmptyValue, Entries.length]
  have hde2 : isEmptyValue (Val.vMap t de) = false := by
    cases de with
    | nil => exact absurd rfl hde
    | cons k v0 rest => simp [isEmptyValue, Entries.length]
  rw [deepMerge.eq_def, if_neg (by simp [tyOf]), if_neg (by simp [hse2]),
    if_neg (by simp [hde2])] at h
  replace h :
      (match deepMergeEntries t de se r ow with
        | Outcome.panicked => Outcome.panicked
        | Outcome.ok de2 => Outcome.ok (Val.vMap t de2, none))
        = Outcome.ok (v, e) := h
  cases hf : deepMergeEntries t de se r ow with
  | panicked => rw [hf] at h; simp at h
  | ok re =>
      rw [hf] at h
      simp at h
      exact ⟨re, h.1.symm, h.2.symm, rfl⟩

/-- An entry-point struct merge is exactly the engine run on the pointee with
an addressable, writable destination and a fresh (false) read-only flag. -/
theorem merge_struct_ok {pt : Ty} {n : String} {df sf : Fields} {ow : Bool}
    {v : Val} {e : Option MergoError}
    (h : merge (some (.vPtr pt (some (.vStruct n df)))) (some (.vStruct n sf)) ow
      = .ok (some v, e)) :
    deepMerge (.vStruct n df) (.vStruct n sf) true false ow = .ok (v, e) := by
  replace h :
      (if tyOf (Val.vStruct n df) ≠ tyOf (Val.vStruct n sf)
        then Outcome.ok (some (Val.vStruct n df), some MergoError.differentArgumentsTypes)
        else match deepMerge (Val.vStruct n df) (Val.vStruct n sf) true false ow with
          | Outcome.panicked => Outcome.panicked
          | Outcome.ok (v2, e2) => Outcome.ok (some v2, e2))
      = Outcome.ok (some v, e) := h
  rw [if_neg (by simp [tyOf])] at h
  cases hd : deepMerge (.vStruct n df) (.vStruct n sf) true false ow with
  | panicked => rw [hd] at h; simp at h
  | ok p =>
      rw [hd] at h
      cases p with
      | mk v2 e2 => simp at h; rw [h.1, h.2]

/-- An entry-point map merge is exactly the engine run on the pointee. -/
theorem merge_map_ok {pt t : Ty} {de se : Entries} {ow : Bool}
    {v : Val} {e : Option MergoError}
    (h : merge (some (.vPtr pt (some (.vMap t de)))) (some (.vMap t se)) ow
      = .ok (some v, e)) :
    deepMerge (.vMap t de) (.vMap t se) true false ow = .ok (v, e) := by
  replace h :
      (if tyOf (Val.vMap t de) ≠ tyOf (Val.vMap t se)
        then Outcome.ok (some (Val.vMap t de), some MergoError.differentArgumentsTypes)
        else match deepMerge (Val.vMap t de) (Val.vMap t se) true false ow with
          | Outcome.panicked => Outcome.panicked
          | Outcome.ok (v2, e2) => Outcome.ok (some v2, e2))
      = Outcome.ok (some v, e) := h
  rw [if_neg (by simp [tyOf])] at h
  cases hd : deepMerge (.vMap t de) (.vMap t se) true false ow with
  | panicked => rw [hd] at h; simp at h
  | ok p =>
      rw [hd] at h
      cases p with
      | mk v2 e2 => simp at h; rw [h.1, h.2]

/-- In an error-free `mergeStructs` run every destination field was merged
with the paired source field, the read-only flag set for unexported fields,
and took the merged value at its position. -/
theorem deepMergeFields_nth {a r ow : Bool} :
    ∀ (df sf rf : Fields), deepMergeFields df sf a r ow = .ok (rf, none) →
    ∀ (i : Nat) (nm : String) (ex : Bool) (v : Val), df.nth i = some (nm, ex, v) →
    ∃ snm sex sv v2, sf.nth i = some (snm, sex, sv) ∧
      deepMerge v sv a (r || !ex) ow = .ok (v2, none) ∧
      rf.nth i = some (nm, ex, v2)
  | .nil, sf, rf, h, i, nm, ex, v, hnth => by simp [Fields.nth] at hnth
  | .cons n0 ex0 v0 rest, .nil, rf, h, i, nm, ex, v, hnth => by
      rw [deepMergeFields] at h
      simp at h
  | .cons n0 ex0 v0 rest, .cons sn0 sex0 sv0 srest, rf, h, i, nm, ex, v, hnth => by
      rw [deepMergeFields] at h
      cases h0 : deepMerge v0 sv0 a (r || !ex0) ow with
      | panicked => rw [h0] at h; simp at h
      | ok p =>
          rw [h0] at h
          cases p with
          | mk v2 e2 =>
              cases e2 with
              | some e0 => simp at h
              | none =>
                  replace h :
                      (match deepMergeFields rest srest a r ow with
                        | Outcome.panicked => Outcome.panicked
                        | Outcome.ok (rest2, e3) =>
                            Outcome.ok (Fields.cons n0 ex0 v2 rest2, e3))
                      = Outcome.ok (rf, none) := h
                  cases hrest : deepMergeFields rest srest a r ow with
                  | panicked => rw [hrest] at h; simp at h
                  | ok q =>
                      rw [hrest] at h
                      cases q with
                      | mk rest2 e3 =>
                          simp at h
                          rcases h with ⟨hrf, he3⟩
                          subst he3
                          cases i with
                          | zero =>
                              simp [Fields.nth] at hnth
                              rcases hnth with ⟨h1, h2, h3⟩
                              subst h1; subst h2; subst h3
                              exact ⟨sn0, sex0, sv0, v2, rfl, h0, by
                                rw [← hrf]; rfl⟩
                          | succ j =>
                              simp only [Fields.nth] at hnth
                              obtain ⟨snm, sex, sv, v3, hs, hd, hr⟩ :=
                                deepMergeFields_nth rest srest rest2 hrest j nm ex v hnth
                              exact ⟨snm, sex, sv, v3, hs, hd, by
                                rw [← hrf]; simpa [Fields.nth] using hr⟩

/-- With the read-only flag set, a `mergeMaps` iteration either panics (a
`SetMapIndex` on a read-only map) or skips the key. -/
theorem entryCtl_ro (de : Entries) (k : String) (sv : Val) (ow : Bool) :
    entryCtl de k sv true ow = .panic ∨ entryCtl de k sv true ow = .next de := by
  simp only [entryCtl]
  split
  · exact Or.inl rfl
  · rename_i dv hdl
    by_cases hc : (isEmptyValue dv || ow) = true
    · rw [if_pos hc]
      exact Or.inl rfl
    · rw [if_neg hc]
      exact Or.inr rfl

/-- Unfolding of one `mergeMaps` iteration, with the impossible source rows
folded into the unboxing: the iteration panics, or continues on an updated
map, or runs the nested merge of the unboxed entries and writes the result
back only on success. -/
theorem deepMergeEntries_cons (t : Ty) (de : Entries) (k : String) (sv : Val)
    (srest : Entries) (ro ow : Bool) :
    deepMergeEntries t de (.cons k sv srest) ro ow =
      (match entryCtl de k sv ro ow with
        | .panic => .panicked
        | .next de2 => deepMergeEntries t de2 srest ro ow
        | .nested dv2 =>
            match unwrapIface sv with
            | none => .panicked
            | some sv2 =>
                match deepMerge dv2 sv2 true false ow with
                | .panicked => .panicked
                | .ok (_, some _) => deepMergeEntries t de srest ro ow
                | .ok (d2, none) =>
                    deepMergeEntries t (de.set k (rewrap t d2)) srest ro ow) := by
  cases sv <;> first
    | rfl
    | (rename_i i; cases i <;> rfl)

/-- Through a read-only path (`flagRO` set, i.e. at or below an unexported
field) nothing is ever written: `CanSet` is false at every `Set` site, map
writes would panic, and recursion preserves the flag.  Stated for all three
mutual functions at once, by strong induction on the size of the source
side. -/
theorem ro_freeze_all : ∀ (m : Nat),
    (∀ (d s : Val) (a ow : Bool) (v : Val) (e : Option MergoError),
      sizeOf s ≤ m → deepMerge d s a true ow = .ok (v, e) → v = d) ∧
    (∀ (df sf : Fields) (a ow : Bool) (rf : Fields) (e : Option MergoError),
      sizeOf sf ≤ m → deepMergeFields df sf a true ow = .ok (rf, e) → rf = df) ∧
    (∀ (t : Ty) (de se : Entries) (ow : Bool) (re : Entries),
      sizeOf se ≤ m → deepMergeEntries t de se true ow = .ok re → re = de) := by
  intro m
  induction m using Nat.strong_induction_on with
  | _ m ih =>
    refine ⟨?_, ?_, ?_⟩
    · intro d s a ow v e hle h
      rw [deepMerge.eq_def] at h
      split at h
      · simp at h; exact h.1.symm
      · split at h
        · simp at h; exact h.1.symm
        · split at h
          · simp at h; exact h.1.symm
          · split at h
            · rename_i n df n2 sf hde0 hse0 hty0
              cases hf : deepMergeFields df sf a true ow with
              | panicked => rw [hf] at h; simp at h
              | ok p =>
                  rw [hf] at h
                  cases p with
                  | mk df2 e2 =>
                      simp at h
                      have hsz : sizeOf sf < sizeOf (Val.vStruct n2 sf) := by
                        simp <;> omega
                      have hdf2 := (ih (sizeOf sf) (by omega)).2.1 df sf a ow
                        df2 e2 (le_refl _) hf
                      rw [← h.1, hdf2]
            · rename_i t de t2 se hde0 hse0 hty0
              cases hf : deepMergeEntries t de se true ow with
              | panicked => rw [hf] at h; simp at h
              | ok re =>
                  rw [hf] at h
                  simp at h
                  have hsz : sizeOf se < sizeOf (Val.vMap t2 se) := by
                    simp <;> omega
                  have hre := (ih (sizeOf se) (by omega)).2.2 t de se ow re
                    (le_refl _) hf
                  rw [← h.1, hre]
            · rename_i t dp t2 sp hde0 hse0 hty0
              have hsz : sizeOf sp < sizeOf (Val.vPtr t2 (some sp)) := by
                simp <;> omega
              split at h
              · cases hf : deepMerge dp sp true true ow with
                | panicked => rw [hf] at h; simp at h
                | ok p =>
                    rw [hf] at h
                    cases p with
                    | mk dp2 e2 =>
                        simp at h
                        have hdp2 := (ih (sizeOf sp) (by omega)).1 dp sp true ow
                          dp2 e2 (le_refl _) hf
                        rw [← h.1, hdp2]
              · simp at h; exact h.1.symm
            · rename_i dp sp hde0 hse0 hty0
              have hsz : sizeOf sp < sizeOf (Val.vIface (some sp)) := by
                simp <;> omega
              split at h
              · cases hf : deepMerge dp sp false true ow with
                | panicked => rw [hf] at h; simp at h
                | ok p =>
                    rw [hf] at h
                    cases p with
                    | mk dp2 e2 =>
                        simp at h
                        have hdp2 := (ih (sizeOf sp) (by omega)).1 dp sp false ow
                          dp2 e2 (le_refl _) hf
                        rw [← h.1, hdp2]
              · simp at h; exact h.1.symm
            · simp at h; exact h.1.symm
            · simp at h; exact h.1.symm
    · intro df sf a ow rf e hle h
      cases df with
      | nil =>
          cases sf with
          | nil =>
              replace h : Outcome.ok (Fields.nil, (none : Option MergoError))
                  = Outcome.ok (rf, e) := h
              simp at h
              exact h.1.symm
          | cons sn0 sex0 sv0 srest =>
              replace h : Outcome.ok (Fields.nil, (none : Option MergoError))
                  = Outcome.ok (rf, e) := h
              simp at h
              exact h.1.symm
      | cons n0 ex0 v0 rest =>
          cases sf with
          | nil =>
              replace h : (Outcome.panicked : Outcome (Fields × Option MergoError))
                  = Outcome.ok (rf, e) := h
              simp at h
          | cons sn0 sex0 sv0 srest =>
              have hsz0 : sizeOf sv0 < sizeOf (Fields.cons sn0 sex0 sv0 srest) := by
                simp <;> omega
              have hsz1 : sizeOf srest < sizeOf (Fields.cons sn0 sex0 sv0 srest) := by
                simp <;> omega
              replace h :
                  (match deepMerge v0 sv0 a true ow with
                    | Outcome.panicked => Outcome.panicked
                    | Outcome.ok (v2, some e2) =>
                        Outcome.ok (Fields.cons n0 ex0 v2 rest, some e2)
                    | Outcome.ok (v2, none) =>
                        match deepMergeFields rest srest a true ow with
                        | Outcome.panicked => Outcome.panicked
                        | Outcome.ok (rest2, e3) =>
                            Outcome.ok (Fields.cons n0 ex0 v2 rest2, e3))
                  = Outcome.ok (rf, e) := h
              cases h0 : deepMerge v0 sv0 a true ow with
              | panicked => rw [h0] at h; simp at h
              | ok p =>
                  rw [h0] at h
                  cases p with
                  | mk v2 e2 =>
                      have hv2 : v2 = v0 :=
                        (ih (sizeOf sv0) (by omega)).1 v0 sv0 a ow v2 e2
                          (le_refl _) h0
                      cases e2 with
                      | some e0 =>
                          simp at h
                          rw [← h.1, hv2]
                      | none =>
                          cases hrest : deepMergeFields rest srest a true ow with
                          | panicked => rw [hrest] at h; simp at h
                          | ok q =>
                              rw [hrest] at h
                              cases q with
                              | mk rest2 e3 =>
                                  have hr2 : rest2 = rest :=
                                    (ih (sizeOf srest) (by omega)).2.1 rest srest
                                      a ow rest2 e3 (le_refl _) hrest
                                  simp at h
                                  rw [← h.1, hv2, hr2]
    · intro t de se ow re hle h
      cases se with
      | nil =>
          replace h : Outcome.ok de = Outcome.ok re := h
          simp at h
          exact h.symm
      | cons k sv srest =>
          have hsz : sizeOf srest < sizeOf (Entries.cons k sv srest) := by
            simp <;> omega
          rw [deepMergeEntries_cons] at h
          rcases entryCtl_ro de k sv ow with hc | hc <;> rw [hc] at h
          · replace h : (Outcome.panicked : Outcome Entries) = Outcome.ok re := h
            exact Outcome.noConfusion h
          · replace h : deepMergeEntries t de srest true ow = Outcome.ok re := h
            exact (ih (sizeOf srest) (by omega)).2.2 t de srest ow re
              (le_refl _) h

/-- `mergeStructs` leaves every unexported field's value untouched, whether
or not the run ended with an error: the field itself is merged under the
read-only flag (freezing it), and fields after an aborting error are never
reached. -/
theorem deepMergeFields_unexported {a ow : Bool} :
    ∀ (df sf rf : Fields) (e : Option MergoError),
      deepMergeFields df sf a false ow = .ok (rf, e) →
      ∀ (i : Nat) (nm : String) (v : Val), df.nth i = some (nm, false, v) →
      rf.nth i = some (nm, false, v)
  | .nil, sf, rf, e, h, i, nm, v, hnth => by simp [Fields.nth] at hnth
  | .cons n0 ex0 v0 rest, .nil, rf, e, h, i, nm, v, hnth => by
      rw [deepMergeFields] at h
      simp at h
  | .cons n0 ex0 v0 rest, .cons sn0 sex0 sv0 srest, rf, e, h, i, nm, v, hnth => by
      rw [deepMergeFields] at h
      cases h0 : deepMerge v0 sv0 a (false || !ex0) ow with
      | panicked => rw [h0] at h; simp at h
      | ok p =>
          rw [h0] at h
          cases p with
          | mk v2 e2 =>
              cases i with
              | zero =>
                  simp [Fields.nth] at hnth
                  rcases hnth with ⟨h1, h2, h3⟩
                  subst h1; subst h3
                  subst h2
                  have hv2 : v2 = v0 :=
                    (ro_freeze_all (sizeOf sv0)).1 v0 sv0 a ow v2 e2
                      (le_refl _) h0
                  subst hv2
                  cases e2 with
                  | some e0 =>
                      simp at h
                      rw [← h.1]
                      rfl
                  | none =>
                      cases hrest : deepMergeFields rest srest a false ow with
                      | panicked => rw [hrest] at h; simp at h
                      | ok q =>
                          rw [hrest] at h
                          cases q with
                          | mk rest2 e3 =>
                              simp at h
                              rw [← h.1]
                              rfl
              | succ j =>
                  simp only [Fields.nth] at hnth
                  cases e2 with
                  | some e0 =>
                      simp at h
                      rw [← h.1]
                      simpa [Fields.nth] using hnth
                  | none =>
                      cases hrest : deepMergeFields rest srest a false ow with
                      | panicked => rw [hrest] at h; simp at h
                      | ok q =>
                          rw [hrest] at h
                          cases q with
                          | mk rest2 e3 =>
                              simp at h
                              rw [← h.1]
                              simpa [Fields.nth] using
                                deepMergeFields_unexported rest srest rest2 e3
                                  hrest j nm v hnth

/-- An absent destination entry receives the source entry verbatim. -/
theorem entryCtl_absent (de : Entries) (k : String) (sv : Val) (ow : Bool)
    (hl : de.lookup k = none) :
    entryCtl de k sv false ow = .next (de.set k sv) := by
  simp only [entryCtl]
  rw [hl]
  rfl

/-- An empty (or overwritten) destination entry receives the source entry
verbatim. -/
theorem entryCtl_emptyish (de : Entries) (k : String) (sv : Val) (ow : Bool)
    (dv : Val) (hl : de.lookup k = some dv)
    (he : (isEmptyValue dv || ow) = true) :
    entryCtl de k sv false ow = .next (de.set k sv) := by
  simp only [entryCtl]
  rw [hl]
  simp [he]

/-- A nil-interface source entry against a non-empty destination entry makes
the nested call panic on the invalid `reflect.Value`. -/
theorem entryCtl_src_invalid (de : Entries) (k : String) (sv : Val) (ow : Bool)
    (dv : Val) (hl : de.lookup k = some dv)
    (he : (isEmptyValue dv || ow) = false)
    (hus : unwrapIface sv = none) :
    entryCtl de k sv false ow = .panic := by
  simp only [entryCtl]
  rw [hl]
  simp [he, hus]

/-- A non-empty destination entry that unboxes to nothing (unreachable, the
entry is non-empty) would panic. -/
theorem entryCtl_dst_invalid (de : Entries) (k : String) (sv : Val) (ow : Bool)
    (dv sv2 : Val) (hl : de.lookup k = some dv)
    (he : (isEmptyValue dv || ow) = false)
    (hus : unwrapIface sv = some sv2) (hud : unwrapIface dv = none) :
    entryCtl de k sv false ow = .panic := by
  simp only [entryCtl]
  rw [hl]
  simp [he, hus, hud]

/-- Both entries non-empty and unboxable: a nested merge is requested. -/
theorem entryCtl_nested (de : Entries) (k : String) (sv : Val) (ow : Bool)
    (dv dv2 sv2 : Val) (hl : de.lookup k = some dv)
    (he : (isEmptyValue dv || ow) = false)
    (hus : unwrapIface sv = some sv2) (hud : unwrapIface dv = some dv2) :
    entryCtl de k sv false ow = .nested dv2 := by
  simp only [entryCtl]
  rw [hl]
  simp [he, hus, hud]

/-- Lifting `mapsKeySpec` over one verbatim-set iteration (absent or empty
destination entry): the key now holds the source entry, other keys follow
the remaining iterations against the updated map. -/
theorem mapsKeySpec_cons_set (t : Ty) (de srest re : Entries) (k0 : String)
    (sv0 : Val) (hknot : k0 ∉ srest.keys)
    (hcase : de.lookup k0 = none ∨
      ∃ dv0, de.lookup k0 = some dv0 ∧ isEmptyValue dv0 = true)
    (IH : ∀ k, mapsKeySpec t (de.set k0 sv0) srest re k) :
    ∀ k, mapsKeySpec t de (.cons k0 sv0 srest) re k := by
  intro k
  by_cases hk : k0 = k
  · subst hk
    have hsr : srest.lookup k0 = none := Entries.lookup_eq_none srest k0 hknot
    have hre : re.lookup k0 = some sv0 := by
      have := (IH k0).1 hsr
      rwa [Entries.lookup_set_self] at this
    constructor
    · intro hnone
      simp [Entries.lookup] at hnone
    · intro sv hsv
      simp only [Entries.lookup, if_pos rfl] at hsv
      injection hsv with hsv
      subst hsv
      refine ⟨fun _ => hre, fun dv _ _ => hre,
        fun dv hdv hdvne dv2 sv2 _ _ => ?_⟩
      exfalso
      rcases hcase with hcn | ⟨dv0, hc1, hc2⟩
      · rw [hcn] at hdv
        exact Option.noConfusion hdv
      · rw [hc1] at hdv
        injection hdv with hdv
        subst hdv
        rw [hc2] at hdvne
        exact Bool.noConfusion hdvne
  · have hset : (de.set k0 sv0).lookup k = de.lookup k :=
      Entries.lookup_set_ne de k0 k sv0 (fun he => hk he.symm)
    have hcons : (Entries.cons k0 sv0 srest).lookup k = srest.lookup k := by
      simp only [Entries.lookup, if_neg hk]
    obtain ⟨p1, p2⟩ := IH k
    constructor
    · intro hnone
      rw [hcons] at hnone
      rw [p1 hnone, hset]
    · intro sv hsv
      rw [hcons] at hsv
      obtain ⟨q1, q2, q3⟩ := p2 sv hsv
      refine ⟨?_, ?_, ?_⟩
      · intro hnone
        exact q1 (hset.trans hnone)
      · intro dv hdv hemp
        exact q2 dv (hset.trans hdv) hemp
      · intro dv hdv hne dv2 sv2 hud hus
        exact q3 dv (hset.trans hdv) hne dv2 sv2 hud hus

/-- Lifting `mapsKeySpec` over a successful nested-merge iteration: the key
now holds the re-boxed merged value. -/
theorem mapsKeySpec_cons_write (t : Ty) (de srest re : Entries) (k0 : String)
    (sv0 dv0 dv2 sv2 d2 : Val) (hknot : k0 ∉ srest.keys)
    (hl : de.lookup k0 = some dv0) (hne : isEmptyValue dv0 = false)
    (hud : unwrapIface dv0 = some dv2) (hus : unwrapIface sv0 = some sv2)
    (hm : deepMerge dv2 sv2 true false false = .ok (d2, none))
    (IH : ∀ k, mapsKeySpec t (de.set k0 (rewrap t d2)) srest re k) :
    ∀ k, mapsKeySpec t de (.cons k0 sv0 srest) re k := by
  intro k
  by_cases hk : k0 = k
  · subst hk
    have hsr : srest.lookup k0 = none := Entries.lookup_eq_none srest k0 hknot
    have hre : re.lookup k0 = some (rewrap t d2) := by
      have := (IH k0).1 hsr
      rwa [Entries.lookup_set_self] at this
    constructor
    · intro hnone
      simp [Entries.lookup] at hnone
    · intro sv hsv
      simp only [Entries.lookup, if_pos rfl] at hsv
      injection hsv with hsv
      subst hsv
      refine ⟨?_, ?_, ?_⟩
      · intro hnone
        rw [hl] at hnone
        exact Option.noConfusion hnone
      · intro dv hdv hemp
        rw [hl] at hdv
        injection hdv with hdv
        subst hdv
        rw [hemp] at hne
        exact Bool.noConfusion hne
      · intro dv hdv hdvne dv2x sv2x hudx husx
        rw [hl] at hdv
        injection hdv with hdv
        subst hdv
        rw [hud] at hudx
        injection hudx with hudx
        subst hudx
        rw [hus] at husx
        injection husx with husx
        subst husx
        constructor
        · intro d2x hmx
          rw [hm] at hmx
          simp at hmx
          rw [← hmx]
          exact hre
        · intro d2x e0 hmx
          rw [hm] at hmx
          simp at hmx
  · have hset : (de.set k0 (rewrap t d2)).lookup k = de.lookup k :=
      Entries.lookup_set_ne de k0 k (rewrap t d2) (fun he => hk he.symm)
    have hcons : (Entries.cons k0 sv0 srest).lookup k = srest.lookup k := by
      simp only [Entries.lookup, if_neg hk]
    obtain ⟨p1, p2⟩ := IH k
    constructor
    · intro hnone
      rw [hcons] at hnone
      rw [p1 hnone, hset]
    · intro sv hsv
      rw [hcons] at hsv
      obtain ⟨q1, q2, q3⟩ := p2 sv hsv
      refine ⟨?_, ?_, ?_⟩
      · intro hnone
        exact q1 (hset.trans hnone)
      · intro dv hdv hemp
        exact q2 dv (hset.trans hdv) hemp
      · intro dv hdv hne2 dv2x sv2x hudx husx
        exact q3 dv (hset.trans hdv) hne2 dv2x sv2x hudx husx

/-- Lifting `mapsKeySpec` over a failed nested-merge iteration: the key
keeps its old destination entry (the error is absorbed). -/
theorem mapsKeySpec_cons_keep (t : Ty) (de srest re : Entries) (k0 : String)
    (sv0 dv0 dv2 sv2 d2x : Val) (e0 : MergoError) (hknot : k0 ∉ srest.keys)
    (hl : de.lookup k0 = some dv0) (hne : isEmptyValue dv0 = false)
    (hud : unwrapIface dv0 = some dv2) (hus : unwrapIface sv0 = some sv2)
    (hm : deepMerge dv2 sv2 true false false = .ok (d2x, some e0))
    (IH : ∀ k, mapsKeySpec t de srest re k) :
    ∀ k, mapsKeySpec t de (.cons k0 sv0 srest) re k := by
  intro k
  by_cases hk : k0 = k
  · subst hk
    have hsr : srest.lookup k0 = none := Entries.lookup_eq_none srest k0 hknot
    have hre : re.lookup k0 = some dv0 := by
      have := (IH k0).1 hsr
      rw [this, hl]
    constructor
    · intro hnone
      simp [Entries.lookup] at hnone
    · intro sv hsv
      simp only [Entries.lookup, if_pos rfl] at hsv
      injection hsv with hsv
      subst hsv
      refine ⟨?_, ?_, ?_⟩
      · intro hnone
        rw [hl] at hnone
        exact Option.noConfusion hnone
      · intro dv hdv hemp
        rw [hl] at hdv
        injection hdv with hdv
        subst hdv
        rw [hemp] at hne
        exact Bool.noConfusion hne
      · intro dv hdv hdvne dv2x sv2x hudx husx
        rw [hl] at hdv
        injection hdv with hdv
        subst hdv
        rw [hud] at hudx
        injection hudx with hudx
        subst hudx
        rw [hus] at husx
        injection husx with husx
        subst husx
        constructor
        · intro d2y hmx
          rw [hm] at hmx
          simp at hmx
        · intro d2y e1 hmx
          exact hre
  · have hcons : (Entries.cons k0 sv0 srest).lookup k = srest.lookup k := by
      simp only [Entries.lookup, if_neg hk]
    obtain ⟨p1, p2⟩ := IH k
    constructor
    · intro hnone
      rw [hcons] at hnone
      exact p1 hnone
    · intro sv hsv
      rw [hcons] at hsv
      exact p2 sv hsv

/-- The non-overwrite `mergeMaps` pass satisfies `mapsKeySpec` for every
key, provided the source map's keys are distinct (always true of a Go
map). -/
theorem deepMergeEntries_lookup (t : Ty) :
    ∀ (se de re : Entries), se.keys.Nodup →
      deepMergeEntries t de se false false = .ok re →
      ∀ k : String, mapsKeySpec t de se re k
  | .nil, de, re, hnd, h, k => by
      replace h : Outcome.ok de = Outcome.ok re := h
      simp at h
      subst h
      refine ⟨fun _ => rfl, fun sv hsv => ?_⟩
      simp [Entries.lookup] at hsv
  | .cons k0 sv0 srest, de, re, hnd, h, k => by
      have hnd2 : srest.keys.Nodup ∧ k0 ∉ srest.keys := by
        rw [Entries.keys, List.nodup_cons] at hnd
        exact ⟨hnd.2, hnd.1⟩
      rw [deepMergeEntries_cons] at h
      cases hl : de.lookup k0 with
      | none =>
          rw [entryCtl_absent de k0 sv0 false hl] at h
          replace h : deepMergeEntries t (de.set k0 sv0) srest false false
              = Outcome.ok re := h
          exact mapsKeySpec_cons_set t de srest re k0 sv0 hnd2.2 (Or.inl hl)
            (deepMergeEntries_lookup t srest (de.set k0 sv0) re hnd2.1 h) k
      | some dv0 =>
          by_cases hemp : isEmptyValue dv0 = true
          · rw [entryCtl_emptyish de k0 sv0 false dv0 hl (by simp [hemp])] at h
            replace h : deepMergeEntries t (de.set k0 sv0) srest false false
                = Outcome.ok re := h
            exact mapsKeySpec_cons_set t de srest re k0 sv0 hnd2.2
              (Or.inr ⟨dv0, hl, hemp⟩)
              (deepMergeEntries_lookup t srest (de.set k0 sv0) re hnd2.1 h) k
          · have hempf : (isEmptyValue dv0 || false) = false := by
              simpa using hemp
            cases hus : unwrapIface sv0 with
            | none =>
                rw [entryCtl_src_invalid de k0 sv0 false dv0 hl hempf hus] at h
                replace h : (Outcome.panicked : Outcome Entries)
                    = Outcome.ok re := h
                exact Outcome.noConfusion h
            | some sv2 =>
                cases hud : unwrapIface dv0 with
                | none =>
                    rw [entryCtl_dst_invalid de k0 sv0 false dv0 sv2 hl hempf
                      hus hud] at h
                    replace h : (Outcome.panicked : Outcome Entries)
                        = Outcome.ok re := h
                    exact Outcome.noConfusion h
                | some dv2 =>
                    rw [entryCtl_nested de k0 sv0 false dv0 dv2 sv2 hl hempf
                      hus hud, hus] at h
                    replace h :
                        (match deepMerge dv2 sv2 true false false with
                          | Outcome.panicked => Outcome.panicked
                          | Outcome.ok (_, some _) =>
                              deepMergeEntries t de srest false false
                          | Outcome.ok (d2, none) =>
                              deepMergeEntries t (de.set k0 (rewrap t d2))
                                srest false false)
                        = Outcome.ok re := h
                    cases hm : deepMerge dv2 sv2 true false false with
                    | panicked =>
                        rw [hm] at h
                        replace h : (Outcome.panicked : Outcome Entries)
                            = Outcome.ok re := h
                        exact Outcome.noConfusion h
                    | ok p =>
                        rw [hm] at h
                        cases p with
                        | mk d2 e2 =>
                            cases e2 with
                            | none =>
                                replace h : deepMergeEntries t
                                    (de.set k0 (rewrap t d2)) srest false false
                                    = Outcome.ok re := h
                                exact mapsKeySpec_cons_write t de srest re k0
                                  sv0 dv0 dv2 sv2 d2 hnd2.2 hl
                                  (by simpa using hemp) hud hus hm
                                  (deepMergeEntries_lookup t srest
                                    (de.set k0 (rewrap t d2)) re hnd2.1 h) k
                            | some e0 =>
                                replace h : deepMergeEntries t de srest
                                    false false = Outcome.ok re := h
                                exact mapsKeySpec_cons_keep t de srest re k0
                                  sv0 dv0 dv2 sv2 d2 e0 hnd2.2 hl
                                  (by simpa using hemp) hud hus hm
                                  (deepMergeEntries_lookup t srest de re
                                    hnd2.1 h) k

/-- C1 (counterexample): top-level validation passes (both arguments are the
same struct type), yet `Merge` returns an error — the type mismatch of the
dynamic values inside the interface field is found by the recursion of
line 109 and propagated by `mergeStructs`, not absorbed. -/
theorem interfaceFieldMismatchEscapes :
    tyOf (ifaceS (.vStr "a")) = tyOf (ifaceS (.vInt 1)) ∧
    Merge (some (.vPtr (.tyStruct "S") (some (ifaceS (.vInt 1)))))
        (some (ifaceS (.vStr "a")))
      = .ok (some (ifaceS (.vInt 1)), some .typeMismatch) :=
  ⟨rfl, rfl⟩

/-- C1 (amended): a type mismatch discovered inside a map entry is locally
absorbed — a map-kind merge step never reports an error (errors of nested
entry merges are swallowed by the `continue` of line 51); but a mismatch
reached through an interface field of a record is NOT absorbed and
propagates to the caller (see the counterexample). -/
theorem mapTypeMismatchesAbsorbed (t : Ty) (de se : Entries) (a r ow : Bool)
    (v : Val) (e : Option MergoError)
    (h : deepMerge (.vMap t de) (.vMap t se) a r ow = .ok (v, e)) :
    e = none := by
  by_cases hse : isEmptyValue (Val.vMap t se) = true
  · have h2 := (deepMerge_src_empty a r ow (by simp [tyOf]) hse).symm.trans h
    simp at h2
    exact h2.2.symm
  · have hse2 : isEmptyValue (Val.vMap t se) = false := by simpa using hse
    by_cases hde : isEmptyValue (Val.vMap t de) = true
    · have h2 := (deepMerge_dst_empty a r ow (by simp [tyOf]) hse2 hde).symm.trans h
      simp at h2
      exact h2.2.symm
    · have hdnil : de ≠ .nil := by
        intro hx
        subst hx
        simp [isEmptyValue, Entries.length] at hde
      have hsnil : se ≠ .nil := by
        intro hx
        subst hx
        simp [isEmptyValue, Entries.length] at hse2
      obtain ⟨re, hv, he, _⟩ := deepMerge_map_ok hdnil hsnil h
      exact he

/-- C1 (witness): the amended absorption theorem applied to a concrete map
whose entries hold dynamically mismatched values (int vs string): the entry
is kept and no error surfaces. -/
theorem mapTypeMismatchesAbsorbed_witness :
    deepMerge (.vMap .tyIface (.cons "k" (.vIface (some (.vInt 1))) .nil))
        (.vMap .tyIface (.cons "k" (.vIface (some (.vStr "s"))) .nil))
        true false false
      = .ok (.vMap .tyIface (.cons "k" (.vIface (some (.vInt 1))) .nil), none) ∧
    (none : Option MergoError) = none :=
  ⟨rfl, mapTypeMismatchesAbsorbed .tyIface
    (.cons "k" (.vIface (some (.vInt 1))) .nil)
    (.cons "k" (.vIface (some (.vStr "s"))) .nil) true false false
    (.vMap .tyIface (.cons "k" (.vIface (some (.vInt 1))) .nil)) none rfl⟩

/-- C2 (counterexample): `Merge(&intValue, stringValue)` returns
`ErrNotSupported`, not `ErrDifferentArgumentsTypes`: the Struct-or-Map check
of `resolveValues` (line 61) fires before `merge` ever compares the two
types. -/
theorem intDstReturnsNotSupported_cex :
    Merge (some (.vPtr .tyInt (some (.vInt 5)))) (some (.vStr "x"))
      = .ok (some (.vInt 5), some .notSupported) ∧
    MergoError.notSupported ≠ MergoError.differentArgumentsTypes :=
  ⟨rfl, fun h => MergoError.noConfusion h⟩

/-- C2 (amended): `Merge(&intValue, stringValue)` returns the `NotSupported`
error at top level and leaves the pointed-to int unmodified. -/
theorem intDstReturnsNotSupported (n : Int) (s : String) :
    Merge (some (.vPtr .tyInt (some (.vInt n)))) (some (.vStr s))
      = .ok (some (.vInt n), some .notSupported) := rfl

/-- C5: a settable slice destination that is non-empty, merged without
overwrite, becomes the concatenation destination-then-source and the step is
terminal (no error, no wholesale replacement). -/
theorem sliceConcatLaw (t : Ty) (de se : Elems) (hne : de ≠ .nil) :
    deepMerge (.vSlice t de) (.vSlice t se) true false false
      = .ok (.vSlice t (de.append se), none) := by
  cases se with
  | nil =>
      have h1 : isEmptyValue (Val.vSlice t Elems.nil) = true := by
        simp [isEmptyValue, Elems.length]
      rw [deepMerge_src_empty true false false (by simp [tyOf]) h1,
        Elems.append_nil]
  | cons x xs =>
      cases de with
      | nil => exact absurd rfl hne
      | cons y ys =>
          rw [deepMerge.eq_def, if_neg (by simp [tyOf]),
            if_neg (by simp [isEmptyValue, Elems.length]),
            if_neg (by simp [isEmptyValue, Elems.length])]
          rfl

/-- C5 (witness): merging `dst=[1]` with `src=[1,2,3]` yields
`dst=[1,1,2,3]` — length 4, duplicates retained, order preserved. -/
theorem sliceConcatLaw_witness :
    Elems.cons (Val.vInt 1) .nil ≠ .nil ∧
    deepMerge (.vSlice .tyInt (.cons (.vInt 1) .nil))
        (.vSlice .tyInt (.cons (.vInt 1) (.cons (.vInt 2) (.cons (.vInt 3) .nil))))
        true false false
      = .ok (.vSlice .tyInt (.cons (.vInt 1) (.cons (.vInt 1)
          (.cons (.vInt 2) (.cons (.vInt 3) .nil)))), none) :=
  ⟨fun h => Elems.noConfusion h, by
    have h1 := sliceConcatLaw .tyInt (.cons (.vInt 1) .nil)
      (.cons (.vInt 1) (.cons (.vInt 2) (.cons (.vInt 3) .nil)))
      (fun h => Elems.noConfusion h)
    simpa [Elems.append] using h1⟩

/-- C10: a non-nil, non-pointer destination argument makes `Merge` and
`MergeWithOverwrite` panic inside `resolveValues`
(`reflect.ValueOf(dst).Elem()` on a non-pointer) instead of returning a
declared error; the `NilArguments` check catches only literal nils. -/
theorem nonPointerDstPanics (d s : Val) (ow : Bool)
    (hnp : isPtrKind d = false) :
    merge (some d) (some s) ow = .panicked ∧
    merge none (some s) ow = .ok (none, some .nilArguments) ∧
    merge (some d) none ow = .ok (none, some .nilArguments) := by
  refine ⟨?_, rfl, rfl⟩
  cases d <;> first
    | rfl
    | simp [isPtrKind] at hnp

/-- C10 (witness): a struct passed by value panics in both modes; nil
arguments return the `NilArguments` error. -/
theorem nonPointerDstPanics_witness :
    isPtrKind (sT 1) = false ∧
    (merge (some (sT 1)) (some (sT 2)) false = .panicked ∧
     merge none (some (sT 2)) false = .ok (none, some .nilArguments) ∧
     merge (some (sT 1)) none false = .ok (none, some .nilArguments)) :=
  ⟨rfl, nonPointerDstPanics (sT 1) (sT 2) false rfl⟩

/-- C6: emptiness fill law for scalar fields under `Merge`: an empty
destination field takes the non-empty source field's value; a non-empty
destination field is unchanged whatever the source holds. -/
theorem scalarFillLaw (pt : Ty) (n : String) (df sf rf : Fields)
    (i : Nat) (nm snm : String) (sex : Bool) (d s : Val)
    (hm : Merge (some (.vPtr pt (some (.vStruct n df)))) (some (.vStruct n sf))
      = .ok (some (.vStruct n rf), none))
    (hdf : df.nth i = some (nm, true, d))
    (hsf : sf.nth i = some (snm, sex, s))
    (hsc : isScalarKind d = true) :
    (isEmptyValue d = true → isEmptyValue s = false →
      rf.nth i = some (nm, true, s)) ∧
    (isEmptyValue d = false → rf.nth i = some (nm, true, d)) := by
  rw [Merge] at hm
  have h2 := merge_struct_ok hm
  obtain ⟨rf2, hveq, hfields⟩ := deepMerge_struct_ok h2
  injection hveq with hn hrf2
  subst hrf2
  obtain ⟨snm2, sex2, sv, v2, hs2, hdm, hr⟩ :=
    deepMergeFields_nth df sf rf hfields i nm true d hdf
  rw [hsf] at hs2
  simp at hs2
  obtain ⟨he1, he2, he3⟩ := hs2
  subst he3
  have hty := deepMerge_ty_eq hdm
  rw [deepMerge_scalar_step true (false || !true) false hsc hty] at hdm
  simp at hdm
  subst hdm
  constructor
  · intro hde hsne
    rw [hr]
    simp [scalarMerge, hde, hsne]
  · intro hdne
    rw [hr]
    by_cases hse : isEmptyValue s = true
    · simp [scalarMerge, hse]
    · have hse2 : isEmptyValue s = false := by simpa using hse
      simp [scalarMerge, hse2, hdne]

/-- C6 (witness): merging `{A: 0, B: 7}` with `{A: 42, B: 9}`: the empty
`A` is filled with 42, the non-empty `B` keeps 7. -/
theorem scalarFillLaw_witness :
    Merge (some (.vPtr (.tyStruct "W") (some (.vStruct "W"
        (.cons "A" true (.vInt 0) (.cons "B" true (.vInt 7) .nil))))))
      (some (.vStruct "W"
        (.cons "A" true (.vInt 42) (.cons "B" true (.vInt 9) .nil)))) =
      .ok (some (.vStruct "W"
        (.cons "A" true (.vInt 42) (.cons "B" true (.vInt 7) .nil))), none) ∧
    (Fields.cons "A" true (Val.vInt 42)
      (.cons "B" true (.vInt 7) .nil)).nth 0 = some ("A", true, .vInt 42) ∧
    (Fields.cons "A" true (Val.vInt 42)
      (.cons "B" true (.vInt 7) .nil)).nth 1 = some ("B", true, .vInt 7) :=
  ⟨rfl,
   (scalarFillLaw (.tyStruct "W") "W"
      (.cons "A" true (.vInt 0) (.cons "B" true (.vInt 7) .nil))
      (.cons "A" true (.vInt 42) (.cons "B" true (.vInt 9) .nil))
      (.cons "A" true (.vInt 42) (.cons "B" true (.vInt 7) .nil))
      0 "A" "A" true (.vInt 0) (.vInt 42) rfl rfl rfl rfl).1 (by decide) (by decide),
   (scalarFillLaw (.tyStruct "W") "W"
      (.cons "A" true (.vInt 0) (.cons "B" true (.vInt 7) .nil))
      (.cons "A" true (.vInt 42) (.cons "B" true (.vInt 9) .nil))
      (.cons "A" true (.vInt 42) (.cons "B" true (.vInt 7) .nil))
      1 "B" "B" true (.vInt 7) (.vInt 9) rfl rfl rfl rfl).2 (by decide)⟩

/-- C7: overwrite law for scalar fields under `MergeWithOverwrite`: a
non-empty source field lands in the destination field whatever the
destination held before. -/
theorem scalarOverwriteLaw (pt : Ty) (n : String) (df sf rf : Fields)
    (i : Nat) (nm snm : String) (sex : Bool) (d s : Val)
    (hm : MergeWithOverwrite (some (.vPtr pt (some (.vStruct n df))))
        (some (.vStruct n sf)) = .ok (some (.vStruct n rf), none))
    (hdf : df.nth i = some (nm, true, d))
    (hsf : sf.nth i = some (snm, sex, s))
    (hsc : isScalarKind d = true)
    (hsne : isEmptyValue s = false) :
    rf.nth i = some (nm, true, s) := by
  rw [MergeWithOverwrite] at hm
  have h2 := merge_struct_ok hm
  obtain ⟨rf2, hveq, hfields⟩ := deepMerge_struct_ok h2
  injection hveq with hn hrf2
  subst hrf2
  obtain ⟨snm2, sex2, sv, v2, hs2, hdm, hr⟩ :=
    deepMergeFields_nth df sf rf hfields i nm true d hdf
  rw [hsf] at hs2
  simp at hs2
  obtain ⟨he1, he2, he3⟩ := hs2
  subst he3
  have hty := deepMerge_ty_eq hdm
  rw [deepMerge_scalar_step true (false || !true) true hsc hty] at hdm
  simp at hdm
  subst hdm
  rw [hr]
  by_cases hde : isEmptyValue d = true
  · simp [scalarMerge, hsne, hde]
  · have hde2 : isEmptyValue d = false := by simpa using hde
    simp [scalarMerge, hsne, hde2]

/-- C7 (witness): overwriting `{A: 0, B: 7}` with `{A: 42, B: 9}` puts the
source value in both fields, empty or not. -/
theorem scalarOverwriteLaw_witness :
    MergeWithOverwrite (some (.vPtr (.tyStruct "W") (some (.vStruct "W"
        (.cons "A" true (.vInt 0) (.cons "B" true (.vInt 7) .nil))))))
      (some (.vStruct "W"
        (.cons "A" true (.vInt 42) (.cons "B" true (.vInt 9) .nil)))) =
      .ok (some (.vStruct "W"
        (.cons "A" true (.vInt 42) (.cons "B" true (.vInt 9) .nil))), none) ∧
    (Fields.cons "A" true (Val.vInt 42)
      (.cons "B" true (.vInt 9) .nil)).nth 1 = some ("B", true, .vInt 9) :=
  ⟨rfl,
   scalarOverwriteLaw (.tyStruct "W") "W"
      (.cons "A" true (.vInt 0) (.cons "B" true (.vInt 7) .nil))
      (.cons "A" true (.vInt 42) (.cons "B" true (.vInt 9) .nil))
      (.cons "A" true (.vInt 42) (.cons "B" true (.vInt 9) .nil))
      1 "B" "B" true (.vInt 7) (.vInt 9) rfl rfl rfl rfl (by decide)⟩

/-- C9: private-field isolation: a destination field at an unexported
position keeps its exact value through either entry point (`overwrite`
arbitrary), even if the run reports an error — `mergeStructs` passes it
through `reflect` with the read-only flag set, so no `Set` ever fires on
it or inside it. -/
theorem privateFieldIsolation (pt : Ty) (n : String) (df sf rf : Fields)
    (ow : Bool) (e : Option MergoError) (i : Nat) (nm : String) (v : Val)
    (hm : merge (some (.vPtr pt (some (.vStruct n df))))
        (some (.vStruct n sf)) ow = .ok (some (.vStruct n rf), e))
    (hdf : df.nth i = some (nm, false, v)) :
    rf.nth i = some (nm, false, v) := by
  have h2 := merge_struct_ok hm
  obtain ⟨rf2, hveq, hfields⟩ := deepMerge_struct_ok h2
  injection hveq with hn hrf2
  subst hrf2
  exact deepMergeFields_unexported df sf rf e hfields i nm v hdf

/-- C9 (witness): the `TestUnexportedProperty` shape: both records carry an
unexported string field with differing values; after overwrite-merge the
destination's private value is intact while the exported field changed. -/
theorem privateFieldIsolation_witness :
    merge (some (.vPtr (.tyStruct "P") (some (.vStruct "P"
        (.cons "Exported" true (.vInt 1)
          (.cons "notExported" false (.vStr "keep") .nil))))))
      (some (.vStruct "P"
        (.cons "Exported" true (.vInt 2)
          (.cons "notExported" false (.vStr "clobber") .nil)))) true =
      .ok (some (.vStruct "P"
        (.cons "Exported" true (.vInt 2)
          (.cons "notExported" false (.vStr "keep") .nil))), none) ∧
    (Fields.cons "Exported" true (Val.vInt 2)
      (.cons "notExported" false (.vStr "keep") .nil)).nth 1
      = some ("notExported", false, .vStr "keep") :=
  ⟨rfl,
   privateFieldIsolation (.tyStruct "P") "P"
     (.cons "Exported" true (.vInt 1)
       (.cons "notExported" false (.vStr "keep") .nil))
     (.cons "Exported" true (.vInt 2)
       (.cons "notExported" false (.vStr "clobber") .nil))
     (.cons "Exported" true (.vInt 2)
       (.cons "notExported" false (.vStr "keep") .nil))
     true none 1 "notExported" (.vStr "keep") rfl rfl⟩

/-- C3: merging structures that contain pointer cycles terminates: the
visited set can hold at most one key per pair of live nodes, so quadratic
fuel (plus the constant headroom of the initial call) always suffices — the
heap-model run returns a result instead of diverging, in both modes. -/
theorem cyclicMergeTerminates (ow : Bool) (h : Heap) (da : Nat) (s : SrcP)
    (hcl : closedHeapB h = true) (hda : da ∈ hdom h)
    (hok : okSrcPB h s = true) :
    (mergeList ow ((hdom h).length * (hdom h).length + 2) h da s).isSome := by
  have hsome := deepMergeList_isSome ow
    ((hdom h).length * (hdom h).length + 2) h [] da s hcl hda hok
    List.nodup_nil (by intro q hq; simp at hq)
    (by cases s <;> simp [srcFuelNeed, List.length] <;> omega)
  rw [mergeList]
  cases hd : deepMergeList ow ((hdom h).length * (hdom h).length + 2) h [] da s with
  | none => rw [hd] at hsome; simp at hsome
  | some p => simp

/-- C3 (witness): the `TestCircularSrcAndDstPointerStruct` shape — two
disjoint two-node pointer cycles, source assigned into destination — runs to
completion under the quadratic fuel bound in both modes. -/
theorem cyclicMergeTerminates_witness :
    closedHeapB exHeap = true ∧ 0 ∈ hdom exHeap ∧
    okSrcPB exHeap (.copyP (some 2)) = true ∧
    (mergeList false ((hdom exHeap).length * (hdom exHeap).length + 2)
      exHeap 0 (.copyP (some 2))).isSome ∧
    (mergeList true ((hdom exHeap).length * (hdom exHeap).length + 2)
      exHeap 0 (.copyP (some 2))).isSome :=
  ⟨by decide, by decide, by decide,
   cyclicMergeTerminates false exHeap 0 (.copyP (some 2))
     (by decide) (by decide) (by decide),
   cyclicMergeTerminates true exHeap 0 (.copyP (some 2))
     (by decide) (by decide) (by decide)⟩

/-- C8 (counterexample): re-merging an unchanged destination against the
same source mutates it further when a slice field is involved: `[1]` merged
with `[2]` gives `[1,2]`, and merging that result with `[2]` again gives
`[1,2,2]`, not `[1,2]` — the concatenation branch appends on every run. -/
theorem reMergeGrowsSlices_cex :
    Merge (some (.vPtr (.tyStruct "sliceTest")
        (some (slT (.cons (.vInt 1) .nil)))))
      (some (slT (.cons (.vInt 2) .nil)))
      = .ok (some (slT (.cons (.vInt 1) (.cons (.vInt 2) .nil))), none) ∧
    Merge (some (.vPtr (.tyStruct "sliceTest")
        (some (slT (.cons (.vInt 1) (.cons (.vInt 2) .nil))))))
      (some (slT (.cons (.vInt 2) .nil)))
      = .ok (some (slT (.cons (.vInt 1) (.cons (.vInt 2)
          (.cons (.vInt 2) .nil)))), none) ∧
    slT (.cons (.vInt 1) (.cons (.vInt 2) (.cons (.vInt 2) .nil)))
      ≠ slT (.cons (.vInt 1) (.cons (.vInt 2) .nil)) :=
  ⟨rfl, rfl, by simp [slT]⟩

/-- One scalar engine step is idempotent: feeding its result back in with
the same source reproduces the result. -/
theorem scalarMerge_idem (d s : Val) :
    scalarMerge (scalarMerge d s true false false) s true false false
      = scalarMerge d s true false false := by
  by_cases hs : isEmptyValue s = true
  · simp [scalarMerge, hs]
  · have hs2 : isEmptyValue s = false := by simpa using hs
    by_cases hd : isEmptyValue d = true
    · simp [scalarMerge, hs2, hd]
    · have hd2 : isEmptyValue d = false := by simpa using hd
      simp [scalarMerge, hs2, hd2]

/-- Two values of the same type share their kind, so a scalar peer of a
scalar is scalar. -/
theorem isScalarKind_of_ty_eq {d s : Val} (hsc : isScalarKind d = true)
    (hty : tyOf s = tyOf d) : isScalarKind s = true := by
  cases d <;> simp [isScalarKind] at hsc <;>
    cases s <;> simp [tyOf] at hty <;> rfl

/-- `scalarMerge` returns one of its two same-typed operands, so it
preserves the type. -/
theorem scalarMerge_ty {d s : Val} (hty : tyOf s = tyOf d) (a r ow : Bool) :
    tyOf (scalarMerge d s a r ow) = tyOf d := by
  unfold scalarMerge
  split
  · rfl
  · split
    · split
      · exact hty
      · rfl
    · split
      · exact hty
      · rfl

/-- `scalarMerge` of a scalar with a same-typed source is scalar. -/
theorem isScalarKind_scalarMerge {d s : Val} (hsc : isScalarKind d = true)
    (hty : tyOf s = tyOf d) (a r ow : Bool) :
    isScalarKind (scalarMerge d s a r ow) = true := by
  have hss := isScalarKind_of_ty_eq hsc hty
  unfold scalarMerge
  split
  · exact hsc
  · split
    · split
      · exact hss
      · exact hsc
    · split
      · exact hss
      · exact hsc

/-- `mergeStructs` over all-scalar fields is idempotent: running the merged
fields against the same source fields reproduces them. -/
theorem deepMergeFields_scalar_idem : ∀ (df sf rf : Fields),
    allScalarFields df = true →
    deepMergeFields df sf true false false = .ok (rf, none) →
    deepMergeFields rf sf true false false = .ok (rf, none)
  | .nil, sf, rf, hall, h => by
      rw [deepMergeFields] at h
      simp at h
      subst h
      rw [deepMergeFields]
  | .cons n0 ex0 v0 rest, .nil, rf, hall, h => by
      rw [deepMergeFields] at h
      simp at h
  | .cons n0 ex0 v0 rest, .cons sn0 sex0 sv0 srest, rf, hall, h => by
      rw [deepMergeFields] at h
      simp [allScalarFields] at hall
      obtain ⟨hsc0, hallrest⟩ := hall
      cases h0 : deepMerge v0 sv0 true (false || !ex0) false with
      | panicked => rw [h0] at h; simp at h
      | ok p =>
          rw [h0] at h
          obtain ⟨v2, e2⟩ := p
          cases e2 with
          | some e0 => simp at h
          | none =>
              replace h :
                  (match deepMergeFields rest srest true false false with
                    | Outcome.panicked => Outcome.panicked
                    | Outcome.ok (rest2, e3) =>
                        Outcome.ok (Fields.cons n0 ex0 v2 rest2, e3))
                  = Outcome.ok (rf, none) := h
              cases hrest : deepMergeFields rest srest true false false with
              | panicked => rw [hrest] at h; simp at h
              | ok q =>
                  rw [hrest] at h
                  obtain ⟨rest2, e3⟩ := q
                  simp at h
                  obtain ⟨hrf, he3⟩ := h
                  subst he3
                  subst hrf
                  have hrest2 :=
                    deepMergeFields_scalar_idem rest srest rest2 hallrest hrest
                  have hnew : deepMerge v2 sv0 true (false || !ex0) false
                      = .ok (v2, none) := by
                    cases ex0 with
                    | false =>
                        have hv0 : v2 = v0 :=
                          (ro_freeze_all (sizeOf sv0)).1 v0 sv0 true false
                            v2 none le_rfl h0
                        subst hv0
                        exact h0
                    | true =>
                        have hty0 := deepMerge_ty_eq h0
                        rw [deepMerge_scalar_step true (false || !true) false
                          hsc0 hty0] at h0
                        simp at h0
                        subst h0
                        have hty2 : tyOf sv0
                            = tyOf (scalarMerge v0 sv0 true false false) := by
                          rw [scalarMerge_ty hty0]
                          exact hty0
                        rw [deepMerge_scalar_step true (false || !true) false
                          (isScalarKind_scalarMerge hsc0 hty0 true false false)
                          hty2]
                        have hidem := scalarMerge_idem v0 sv0
                        simp at hidem ⊢
                        exact hidem
                  rw [deepMergeFields, hnew]
                  show (match deepMergeFields rest2 srest true false false with
                        | Outcome.panicked => Outcome.panicked
                        | Outcome.ok (r2, e4) =>
                            Outcome.ok (Fields.cons n0 ex0 v2 r2, e4))
                      = Outcome.ok (Fields.cons n0 ex0 v2 rest2, none)
                  rw [hrest2]

/-- C8 (amended): re-merging is a no-op for structs whose fields are all
scalar — the merged destination run again against the same source
reproduces itself exactly.  (For slice fields re-merging appends again, see
the counterexample; and since the engine is a pure function of its
arguments, resetting the destination between two runs trivially reproduces
the first result.) -/
theorem scalarStructIdempotent (pt : Ty) (n : String) (df sf rf : Fields)
    (hall : allScalarFields df = true)
    (hm : Merge (some (.vPtr pt (some (.vStruct n df)))) (some (.vStruct n sf))
      = .ok (some (.vStruct n rf), none)) :
    Merge (some (.vPtr pt (some (.vStruct n rf)))) (some (.vStruct n sf))
      = .ok (some (.vStruct n rf), none) := by
  rw [Merge] at hm ⊢
  have h2 := merge_struct_ok hm
  obtain ⟨rf2, hveq, hfields⟩ := deepMerge_struct_ok h2
  injection hveq with hn hrf2
  subst hrf2
  have hfields2 := deepMergeFields_scalar_idem df sf rf hall hfields
  have hdeep2 : deepMerge (.vStruct n rf) (.vStruct n sf) true false false
      = .ok (.vStruct n rf, none) := by
    rw [deepMerge.eq_def, if_neg (by simp [tyOf]),
      if_neg (by simp [isEmptyValue]), if_neg (by simp [isEmptyValue])]
    show (match deepMergeFields rf sf true false false with
          | Outcome.panicked => Outcome.panicked
          | Outcome.ok (df2, e2) => Outcome.ok (Val.vStruct n df2, e2))
        = Outcome.ok (Val.vStruct n rf, none)
    rw [hfields2]
  show (if tyOf (Val.vStruct n rf) ≠ tyOf (Val.vStruct n sf)
      then Outcome.ok (some (Val.vStruct n rf),
        some MergoError.differentArgumentsTypes)
      else match deepMerge (Val.vStruct n rf) (Val.vStruct n sf)
          true false false with
        | Outcome.panicked => Outcome.panicked
        | Outcome.ok (v2, e2) => Outcome.ok (some v2, e2))
    = Outcome.ok (some (Val.vStruct n rf), none)
  rw [if_neg (by simp [tyOf]), hdeep2]

/-- C8 (witness): merging `{Value: 0}` with `{Value: 42}` gives
`{Value: 42}`; merging that result with the same source again leaves it at
`{Value: 42}`. -/
theorem scalarStructIdempotent_witness :
    Merge (some (.vPtr (.tyStruct "simpleTest") (some (sT 0)))) (some (sT 42))
      = .ok (some (sT 42), none) ∧
    Merge (some (.vPtr (.tyStruct "simpleTest") (some (sT 42)))) (some (sT 42))
      = .ok (some (sT 42), none) :=
  ⟨rfl,
   scalarStructIdempotent (.tyStruct "simpleTest") "simpleTest"
     (.cons "Value" true (.vInt 0) .nil)
     (.cons "Value" true (.vInt 42) .nil)
     (.cons "Value" true (.vInt 42) .nil)
     rfl rfl⟩

/-- C4: the per-key law of a non-overwrite map merge, at the `Merge` entry
point: keys absent from the source keep their destination entry; a source
key lands verbatim when the destination entry is absent or empty; a
non-empty destination entry becomes the nested merge of the unboxed pair
when that merge succeeds and is kept untouched when it errs — errors never
propagate out of `mergeMaps`. -/
theorem mapMergeLaw (pt t : Ty) (de se re : Entries)
    (hnd : se.keys.Nodup)
    (hm : Merge (some (.vPtr pt (some (.vMap t de)))) (some (.vMap t se))
      = .ok (some (.vMap t re), none)) :
    ∀ k, mapsKeySpec t de se re k := by
  rw [Merge] at hm
  have h2 := merge_map_ok hm
  by_cases hse : isEmptyValue (Val.vMap t se) = true
  · have hsnil : se = .nil :=
      Entries.length_eq_zero (by simpa [isEmptyValue] using hse)
    subst hsnil
    have h3 := (deepMerge_src_empty true false false
      (by simp [tyOf]) hse).symm.trans h2
    simp at h3
    subst h3
    intro k
    refine ⟨fun _ => rfl, ?_⟩
    intro sv hsv
    simp [Entries.lookup] at hsv
  · have hse2 : isEmptyValue (Val.vMap t se) = false := by simpa using hse
    by_cases hde : isEmptyValue (Val.vMap t de) = true
    · have hdnil : de = .nil :=
        Entries.length_eq_zero (by simpa [isEmptyValue] using hde)
      subst hdnil
      have h3 := (deepMerge_dst_empty true false false
        (by simp [tyOf]) hse2 hde).symm.trans h2
      simp at h3
      subst h3
      intro k
      constructor
      · intro hnone
        simp [Entries.lookup, hnone]
      · intro sv hsv
        refine ⟨fun _ => hsv, ?_, ?_⟩
        · intro dv hdv
          simp [Entries.lookup] at hdv
        · intro dv hdv
          simp [Entries.lookup] at hdv
    · have hdnil : de ≠ .nil := by
        intro hx
        subst hx
        simp [isEmptyValue, Entries.length] at hde
      have hsnil : se ≠ .nil := by
        intro hx
        subst hx
        simp [isEmptyValue, Entries.length] at hse2
      obtain ⟨re2, hv, henone, hent⟩ := deepMerge_map_ok hdnil hsnil h2
      injection hv with ht hre
      subst hre
      exact deepMergeEntries_lookup t se de re hnd hent

/-- C4 (witness): the spec's example — `{a:{}, b:{42}, c:{13}, d:{61}}`
merged with `{a:{16}, b:{}, c:{12}, e:{14}}` is
`{a:{16}, b:{42}, c:{13}, d:{61}, e:{14}}` — and the per-key law applied
at the source-only key `e`. -/
theorem mapMergeLaw_witness :
    Merge (some (.vPtr (.tyMap (.tyStruct "simpleTest"))
        (some (.vMap (.tyStruct "simpleTest") mapDstEx))))
      (some (.vMap (.tyStruct "simpleTest") mapSrcEx))
      = .ok (some (.vMap (.tyStruct "simpleTest") mapExpEx), none) ∧
    mapExpEx.lookup "a" = some (sT 16) ∧
    mapExpEx.lookup "b" = some (sT 42) ∧
    mapExpEx.lookup "c" = some (sT 13) ∧
    mapExpEx.lookup "d" = some (sT 61) ∧
    mapExpEx.lookup "e" = some (sT 14) ∧
    mapsKeySpec (.tyStruct "simpleTest") mapDstEx mapSrcEx mapExpEx "e" :=
  ⟨rfl, rfl, rfl, rfl, rfl, rfl,
   mapMergeLaw (.tyMap (.tyStruct "simpleTest")) (.tyStruct "simpleTest")
     mapDstEx mapSrcEx mapExpEx (by decide) rfl "e"⟩

end Mergo
